import Mathlib

/-!
# Verification of the sentraproxy forwarding core (src/index.js)

Shallow embedding of the proxy server's pure logic and event handlers:
URL validation (`isValidUrl`), outbound header construction, query-string
re-appending, transport-error classification, the buffered forwarder's
response handling (JSON decode on `application/json`), the streaming
download handler, and the WebSocket relay's closure propagation.

Strings are modelled as Lean `String`, byte streams as `List Nat`,
JavaScript `undefined`-able header lookups as `Option String`, and the
`try`/`catch` around `new URL(...)` as an `Option`-returning parse.
-/

namespace SentraProxy

/-! ## WHATWG URL parsing model

`isValidUrl` (src/index.js lines 25-32) calls `new URL(urlString)` and, on
success, checks membership of `url.protocol` in a fixed list.  We model the
relevant fragment of the WHATWG basic URL parser (as implemented by Node's
`URL` class, called with no base): strip leading/trailing C0-control/space,
remove tabs and newlines, extract `scheme ":"`, and for the special schemes
validate the authority (non-empty host, no forbidden host code point, numeric
port not exceeding 65535).  Non-special schemes take an opaque remainder.
Parse failure (the constructor throwing) is modelled as `none`. -/

def isC0OrSpace (c : Char) : Bool := c.toNat ≤ 32

def isTabOrNewline (c : Char) : Bool := c = '\t' || c = '\n' || c = '\r'

def isAsciiAlpha (c : Char) : Bool :=
  ('a' ≤ c && c ≤ 'z') || ('A' ≤ c && c ≤ 'Z')

def isAsciiDigit (c : Char) : Bool := '0' ≤ c && c ≤ '9'

def isSchemeChar (c : Char) : Bool :=
  isAsciiAlpha c || isAsciiDigit c || c = '+' || c = '-' || c = '.'

/-- Scheme tail: scheme characters up to a mandatory ':'.  Returns the
lower-cased scheme (reversed accumulator) and the remainder after ':'. -/
def takeSchemeAux (acc : List Char) : List Char → Option (List Char × List Char)
  | [] => none
  | c :: cs =>
    if c = ':' then some (acc.reverse, cs)
    else if isSchemeChar c then takeSchemeAux (c.toLower :: acc) cs
    else none

/-- A URL's scheme: one ASCII alpha, then scheme characters, then ':'. -/
def takeScheme : List Char → Option (List Char × List Char)
  | [] => none
  | c :: cs => if isAsciiAlpha c then takeSchemeAux [c.toLower] cs else none

/-- The WHATWG special schemes. -/
def specialSchemes : List String := ["ftp", "file", "http", "https", "ws", "wss"]

/-- Forbidden host code points (WHATWG).  Tabs/newlines are already removed
and the authority was cut at '/', '\\', '?', '#'; IPv6 bracket syntax is not
modelled and is rejected here. -/
def isForbiddenHostChar (c : Char) : Bool :=
  c = '\x00' || c = ' ' || c = '#' || c = '/' || c = ':' || c = '<' ||
  c = '>' || c = '?' || c = '@' || c = '[' || c = '\\' || c = ']' ||
  c = '^' || c = '|'

/-- Everything after the last '@' (userinfo is dropped by the host parser). -/
def afterLastAt (l : List Char) : List Char :=
  if l.contains '@' then (l.reverse.takeWhile (fun c => c ≠ '@')).reverse else l

/-- Authority parsing for a special scheme: skip any run of slashes, take the
authority up to a terminator, drop userinfo, split host from port, and
validate both.  Returns the host on success. -/
def parseSpecialAuthority (rest : List Char) : Option (List Char) :=
  let rest0 := rest.dropWhile (fun c => c = '/' || c = '\\')
  let authority := rest0.takeWhile (fun c =>
    ¬ (c = '/' || c = '\\' || c = '?' || c = '#'))
  let hostport := afterLastAt authority
  let host := hostport.takeWhile (fun c => c ≠ ':')
  let port := (hostport.dropWhile (fun c => c ≠ ':')).drop 1
  if host = [] then none
  else if host.any isForbiddenHostChar then none
  else if ¬ port.all isAsciiDigit then none
  else if port ≠ [] && (String.mk port).toNat! > 65535 then none
  else some host

/-- The result of a successful `new URL(...)`: the fields the proxy reads. -/
structure URLRecord where
  protocol : String
  host : String
  deriving Repr, DecidableEq

/-- Model of `new URL(s)` with no base: `some` a record, or `none` when the
constructor throws.  Special schemes demand a valid authority; other schemes
take the remainder opaquely. -/
def URL_parse (s : String) : Option URLRecord :=
  let cs := ((s.toList.dropWhile isC0OrSpace).reverse.dropWhile isC0OrSpace).reverse
  let cs := cs.filter (fun c => ¬ isTabOrNewline c)
  match takeScheme cs with
  | none => none
  | some (scheme, rest) =>
    let schemeStr := String.mk scheme
    if schemeStr ∈ specialSchemes then
      if schemeStr = "file" then
        some { protocol := schemeStr ++ ":", host := "" }
      else
        match parseSpecialAuthority rest with
        | some host => some { protocol := schemeStr ++ ":", host := String.mk host }
        | none => none
    else
      some { protocol := schemeStr ++ ":", host := "" }

/-- src/index.js lines 25-32: `isValidUrl` — `new URL(urlString)` inside
`try`, protocol membership test, `catch` returning `false`. -/
def isValidUrl (urlString : String) : Bool :=
  match URL_parse urlString with
  | some url => ["http:", "https:", "ws:", "wss:"].contains url.protocol
  | none => false

/-! ## Outbound header construction

Inbound headers are a lookup `String → Option String` (`none` models a
JavaScript `undefined` field).  `req.headers[k] || d` treats both `undefined`
and the empty string as falsy. -/

/-- JavaScript `x || d` on a possibly-undefined string. -/
def jsOr (x : Option String) (d : String) : String :=
  match x with
  | some v => if v = "" then d else v
  | none => d

/-- JavaScript truthiness of a possibly-undefined string. -/
def jsTruthy (x : Option String) : Bool :=
  match x with
  | some v => v ≠ ""
  | none => false

/-- src/index.js lines 84-91: the forwarder's outbound headers.  The
conditional spread `...req.headers['x-custom-header'] && {...}` adds
`X-Custom-Header` only when the inbound value is truthy. -/
def proxyOutboundHeaders (inbound : String → Option String) : List (String × String) :=
  [("Content-Type", jsOr (inbound "content-type") "application/json"),
   ("User-Agent", "NativeProxy/1.0.0"),
   ("Accept", jsOr (inbound "accept") "application/json"),
   ("Authorization", jsOr (inbound "authorization") ""),
   ("X-Requested-With", jsOr (inbound "x-requested-with") "")] ++
  (if jsTruthy (inbound "x-custom-header") then
    [("X-Custom-Header", jsOr (inbound "x-custom-header") "")]
  else [])

/-- src/index.js lines 347-352: the download endpoint's outbound headers. -/
def downloadOutboundHeaders (inbound : String → Option String) : List (String × String) :=
  [("User-Agent", "NativeProxy/1.0.0"),
   ("Accept", "*/*"),
   ("Authorization", jsOr (inbound "authorization") ""),
   ("Range", jsOr (inbound "range") "")]

/-! ## Query-string re-appending

src/index.js lines 103-116: every inbound query key except `url` is appended
to a `URLSearchParams` (only entered when the query has more than one key),
and its serialization is appended to the outbound path with `&` when the
path already contains `?`, else with `?`.  `URLSearchParams.toString` uses
the application/x-www-form-urlencoded serializer, modelled here including
UTF-8 percent-encoding. -/

/-- UTF-8 bytes of a code point. -/
def utf8Bytes (c : Char) : List Nat :=
  let n := c.toNat
  if n < 0x80 then [n]
  else if n < 0x800 then [0xC0 + n / 64, 0x80 + n % 64]
  else if n < 0x10000 then [0xE0 + n / 4096, 0x80 + (n / 64) % 64, 0x80 + n % 64]
  else [0xF0 + n / 262144, 0x80 + (n / 4096) % 64, 0x80 + (n / 64) % 64, 0x80 + n % 64]

/-- Uppercase hexadecimal digit. -/
def hexDigit (n : Nat) : Char :=
  if n < 10 then Char.ofNat (48 + n) else Char.ofNat (55 + n)

/-- Percent-escape of one byte. -/
def percentByte (b : Nat) : List Char :=
  ['%', hexDigit (b / 16), hexDigit (b % 16)]

/-- Characters the form-urlencoded serializer leaves untouched. -/
def isFormUnreserved (c : Char) : Bool :=
  isAsciiAlpha c || isAsciiDigit c || c = '*' || c = '-' || c = '.' || c = '_'

/-- application/x-www-form-urlencoded encoding of one character. -/
def formEncodeChar (c : Char) : List Char :=
  if isFormUnreserved c then [c]
  else if c = ' ' then ['+']
  else ((utf8Bytes c).map percentByte).flatten

/-- application/x-www-form-urlencoded encoding of a string. -/
def formEncode (s : String) : String :=
  String.mk (s.toList.map formEncodeChar).flatten

/-- One `k=v` component of `URLSearchParams.toString()`. -/
def serializePair (kv : String × String) : String :=
  formEncode kv.1 ++ "=" ++ formEncode kv.2

/-- Join with `&`, as `URLSearchParams.toString()` does. -/
def joinAmp : List String → String
  | [] => ""
  | [x] => x
  | x :: y :: ys => x ++ "&" ++ joinAmp (y :: ys)

/-- Serialization of the rebuilt search params. -/
def searchParamsToString (l : List (String × String)) : String :=
  joinAmp (l.map serializePair)

/-- src/index.js lines 104-111: the pairs placed into `queryParams` — every
inbound query entry whose key is not `url`, gated on the inbound query
having more than one key. -/
def queryPairsToAppend (query : List (String × String)) : List (String × String) :=
  if query.length > 1 then query.filter (fun kv => kv.1 ≠ "url") else []

/-- src/index.js lines 113-116: append the rebuilt query string to the
outbound path, choosing `&` when the path already contains `?`. -/
def appendQueryToPath (path : String) (query : List (String × String)) : String :=
  let qs := searchParamsToString (queryPairsToAppend query)
  if qs = "" then path
  else path ++ (if path.toList.contains '?' then "&" else "?") ++ qs

/-! ## JSON model

The forwarder's end handler (src/index.js lines 160-173) runs `JSON.parse`
on the buffered body when the upstream content-type contains
`application/json`, answering with the decoded value (`res.json`) and
falling back to the raw bytes (`res.send`) on a parse error or any other
content-type.  `JSON.parse`/`JSON.stringify` belong to the JavaScript
runtime; we model the JSON value space with integer numbers and without
`\u` escapes (floating-point numbers are outside the embedding), which is
enough for every claim about the handler. -/

inductive JVal where
  | jnull : JVal
  | jbool : Bool → JVal
  | jnum : Int → JVal
  | jstr : String → JVal
  | jarr : List JVal → JVal
  | jobj : List (String × JVal) → JVal

/-- Decimal digit character. -/
def digitChar (n : Nat) : Char :=
  if n = 0 then '0' else if n = 1 then '1' else if n = 2 then '2'
  else if n = 3 then '3' else if n = 4 then '4' else if n = 5 then '5'
  else if n = 6 then '6' else if n = 7 then '7' else if n = 8 then '8'
  else '9'

/-- Decimal digits of a natural number, most significant first (fuelled). -/
def natToDigitsAux : Nat → Nat → List Char
  | 0, _ => []
  | f + 1, n =>
    if n < 10 then [digitChar n]
    else natToDigitsAux f (n / 10) ++ [digitChar (n % 10)]

def natToDigits (n : Nat) : List Char := natToDigitsAux (n + 1) n

/-- Decimal notation of an integer, as `JSON.stringify` prints it. -/
def jnumToChars : Int → List Char
  | .ofNat m => natToDigits m
  | .negSucc m => '-' :: natToDigits (m + 1)

/-! `JSON.stringify`, producing a character list (no added whitespace). -/
mutual
def stringifyJc : JVal → List Char
  | .jnull => ['n', 'u', 'l', 'l']
  | .jbool true => ['t', 'r', 'u', 'e']
  | .jbool false => ['f', 'a', 'l', 's', 'e']
  | .jnum n => jnumToChars n
  | .jstr s => '"' :: (s.toList ++ ['"'])
  | .jarr l => '[' :: (stringifyListc l ++ [']'])
  | .jobj m => '\x7b' :: (stringifyMembersc m ++ ['\x7d'])
def stringifyListc : List JVal → List Char
  | [] => []
  | [v] => stringifyJc v
  | v :: w :: ws => stringifyJc v ++ ',' :: stringifyListc (w :: ws)
def stringifyMembersc : List (String × JVal) → List Char
  | [] => []
  | [(k, v)] => '"' :: (k.toList ++ '"' :: ':' :: stringifyJc v)
  | (k, v) :: m :: ms =>
    ('"' :: (k.toList ++ '"' :: ':' :: stringifyJc v)) ++ ',' :: stringifyMembersc (m :: ms)
end

def stringifyJ (v : JVal) : String := String.mk (stringifyJc v)

/-- A string `JSON.stringify` prints verbatim between quotes: no quote, no
backslash, no control character (those require escape sequences, which the
model omits). -/
def plainStr (s : String) : Bool :=
  s.toList.all (fun c => c ≠ '"' && c ≠ '\\' && 31 < c.toNat)

/-! `wfJ`: values in the modelled JSON fragment. -/
mutual
def wfJ : JVal → Bool
  | .jnull => true
  | .jbool _ => true
  | .jnum _ => true
  | .jstr s => plainStr s
  | .jarr l => wfListJ l
  | .jobj m => wfMembersJ m
def wfListJ : List JVal → Bool
  | [] => true
  | v :: vs => wfJ v && wfListJ vs
def wfMembersJ : List (String × JVal) → Bool
  | [] => true
  | (k, v) :: ms => plainStr k && wfJ v && wfMembersJ ms
end

/-! `weightJ`: fuel weight of a value, an upper bound on the recursion
depth the fuelled parser spends on it. -/
mutual
def weightJ : JVal → Nat
  | .jnull => 1
  | .jbool _ => 1
  | .jnum _ => 1
  | .jstr _ => 1
  | .jarr l => 1 + weightListJ l
  | .jobj m => 1 + weightMembersJ m
def weightListJ : List JVal → Nat
  | [] => 0
  | v :: vs => weightJ v + 1 + weightListJ vs
def weightMembersJ : List (String × JVal) → Nat
  | [] => 0
  | (_, v) :: ms => weightJ v + 1 + weightMembersJ ms
end

/-- JSON whitespace. -/
def isJsonWs (c : Char) : Bool := c = ' ' || c = '\t' || c = '\n' || c = '\r'

def skipWs (cs : List Char) : List Char := cs.dropWhile isJsonWs

/-- ASCII decimal digit, spelled as the ten alternatives so that proofs can
case on the concrete character. -/
def isDigitChar (c : Char) : Bool :=
  c = '0' || c = '1' || c = '2' || c = '3' || c = '4' ||
  c = '5' || c = '6' || c = '7' || c = '8' || c = '9'

def digitsToNat (ds : List Char) : Nat :=
  ds.foldl (fun a c => a * 10 + (c.toNat - 48)) 0

/-- Value of a JSON escape character. -/
def escFor (c : Char) : Option Char :=
  if c = '"' then some '"'
  else if c = '\\' then some '\\'
  else if c = '/' then some '/'
  else if c = 'n' then some '\n'
  else if c = 't' then some '\t'
  else if c = 'r' then some '\r'
  else if c = 'b' then some '\x08'
  else if c = 'f' then some '\x0C'
  else none

/-- Content of a JSON string literal up to the closing quote (`\u` escapes
are outside the model). -/
def parseStrChars : List Char → Option (List Char × List Char)
  | [] => none
  | c :: rest =>
    if c = '"' then some ([], rest)
    else if c = '\\' then
      match rest with
      | [] => none
      | e :: rest2 =>
        match escFor e with
        | some ec => (parseStrChars rest2).map (fun p => (ec :: p.1, p.2))
        | none => none
    else if c.toNat < 32 then none
    else (parseStrChars rest).map (fun p => (c :: p.1, p.2))

/-- Integer literal: optional minus, then at least one digit. -/
def parseIntLit (cs : List Char) : Option (Int × List Char) :=
  match cs with
  | [] => none
  | c :: rest =>
    if c = '-' then
      let ds := rest.takeWhile isDigitChar
      if ds = [] then none
      else some (-(digitsToNat ds : Int), rest.dropWhile isDigitChar)
    else
      let ds := (c :: rest).takeWhile isDigitChar
      if ds = [] then none
      else some ((digitsToNat ds : Int), (c :: rest).dropWhile isDigitChar)

/-- Literal keyword: `some` the remainder iff `pre` is a prefix. -/
def expectPre (pre cs : List Char) : Option (List Char) :=
  if pre.isPrefixOf cs then some (cs.drop pre.length) else none

/-! The fuelled recursive-descent value parser (`JSON.parse`). -/
mutual
def parseJVal : Nat → List Char → Option (JVal × List Char)
  | 0, _ => none
  | f + 1, cs =>
    match skipWs cs with
    | [] => none
    | c :: r =>
      if c = 'n' then (expectPre ['u', 'l', 'l'] r).map (fun r2 => (.jnull, r2))
      else if c = 't' then (expectPre ['r', 'u', 'e'] r).map (fun r2 => (.jbool true, r2))
      else if c = 'f' then (expectPre ['a', 'l', 's', 'e'] r).map (fun r2 => (.jbool false, r2))
      else if c = '"' then (parseStrChars r).map (fun p => (.jstr (String.mk p.1), p.2))
      else if c = '[' then
        let r1 := skipWs r
        if r1.head? = some ']' then some (.jarr [], r1.drop 1)
        else (parseElems f r1).map (fun p => (.jarr p.1, p.2))
      else if c = '\x7b' then
        let r1 := skipWs r
        if r1.head? = some '\x7d' then some (.jobj [], r1.drop 1)
        else (parseMembers f r1).map (fun p => (.jobj p.1, p.2))
      else (parseIntLit (c :: r)).map (fun p => (.jnum p.1, p.2))
def parseElems : Nat → List Char → Option (List JVal × List Char)
  | 0, _ => none
  | f + 1, cs =>
    match parseJVal f cs with
    | none => none
    | some (v, r) =>
      let r1 := skipWs r
      if r1.head? = some ',' then (parseElems f (r1.drop 1)).map (fun p => (v :: p.1, p.2))
      else if r1.head? = some ']' then some ([v], r1.drop 1)
      else none
def parseMembers : Nat → List Char → Option (List (String × JVal) × List Char)
  | 0, _ => none
  | f + 1, cs =>
    match skipWs cs with
    | [] => none
    | c :: r =>
      if c = '"' then
        match parseStrChars r with
        | none => none
        | some (k, r1) =>
          let r2 := skipWs r1
          if r2.head? = some ':' then
            match parseJVal f (r2.drop 1) with
            | none => none
            | some (v, r3) =>
              let r4 := skipWs r3
              if r4.head? = some ',' then
                (parseMembers f (r4.drop 1)).map (fun p => ((String.mk k, v) :: p.1, p.2))
              else if r4.head? = some '\x7d' then some ([(String.mk k, v)], r4.drop 1)
              else none
          else none
      else none
end

/-- First characters that `stringifyJc` can emit are never whitespace and
never one of the structural delimiters. -/
def goodHead (c : Char) : Bool :=
  !isJsonWs c && !(c = ']') && !(c = '\x7d') && !(c = ',') && !(c = ':')

/-- Model of `JSON.parse`: parse one value, demand only whitespace after
it; `none` models the thrown `SyntaxError`.  The fuel `length + 1` always
suffices (the weight of a parsed value never exceeds the text length). -/
def JSON_parse (s : String) : Option JVal :=
  match parseJVal (s.length + 1) s.toList with
  | some (v, rest) => if skipWs rest = [] then some v else none
  | none => none

/-- JavaScript `String.prototype.includes`. -/
def jsIncludes (s sub : String) : Bool := decide (sub.toList <:+: s.toList)

/-- What the forwarder answers to the caller as a body. -/
inductive ForwardBody where
  | jsonBody : JVal → ForwardBody
  | rawBody : String → ForwardBody

/-- src/index.js lines 160-173: the end handler of the buffered forwarder.
`contentTypeHeader` is `proxyRes.headers['content-type']` (`|| ''`); `raw`
is the concatenation of the buffered chunks. -/
def endHandler (contentTypeHeader : Option String) (raw : String) : ForwardBody :=
  let contentType := jsOr contentTypeHeader ""
  if jsIncludes contentType "application/json" then
    match JSON_parse raw with
    | some v => .jsonBody v
    | none => .rawBody raw
  else .rawBody raw

/-! ## Forwarder terminal events (src/index.js lines 127-233)

The forwarder's caller-facing response can be produced by the upstream
`end` handler (success), the `error` handler, the `timeout` handler, or the
`catch` around request construction.  `Res.trySend` models the HTTP layer:
once a response has been flushed, a later `res.status(...).json(...)`
throws `ERR_HTTP_HEADERS_SENT` and the emitted response is unchanged. -/

/-- Node transport error codes as observed by `error.code`. -/
inductive ErrCode where
  | ENOTFOUND
  | ECONNREFUSED
  | ETIMEDOUT
  | CERT_HAS_EXPIRED
  | UNABLE_TO_VERIFY_LEAF_SIGNATURE
  | otherCode (s : String)
  deriving Repr, DecidableEq

/-- Body of a caller-facing response: a structured error, or the relayed
upstream body. -/
inductive RBody where
  | errText (error message : String)
  | upstreamBody (b : ForwardBody)

structure SentResponse where
  status : Nat
  body : RBody

/-- The caller's response object: at most one response is ever flushed. -/
structure Res where
  sent : Option SentResponse

def Res.headersSent (r : Res) : Bool := r.sent.isSome

/-- `res.status(...).json(...)`: flushes the response when none has been
sent; afterwards the HTTP layer refuses and the wire is unchanged. -/
def Res.trySend (r : Res) (resp : SentResponse) : Res :=
  match r.sent with
  | some _ => r
  | none => { sent := some resp }

structure ProxyState where
  res : Res
  proxyReqDestroyed : Bool

def initialProxyState : ProxyState := { res := { sent := none }, proxyReqDestroyed := false }

/-- src/index.js lines 180-204: the classification in the `error` handler:
ENOTFOUND/ECONNREFUSED → 502, ETIMEDOUT → 504, certificate errors fall
through with the rest to 500. -/
def proxyErrorResponse (e : ErrCode) : SentResponse :=
  if e = .ENOTFOUND ∨ e = .ECONNREFUSED then
    ⟨502, .errText "Bad Gateway" "Cannot connect to target server"⟩
  else if e = .ETIMEDOUT then
    ⟨504, .errText "Gateway Timeout" "Request to target server timed out"⟩
  else
    ⟨500, .errText "Internal Server Error" "Failed to proxy request"⟩

/-- src/index.js lines 177-205: `proxyReq.on('error')`. -/
def onProxyError (e : ErrCode) (st : ProxyState) : ProxyState :=
  { st with res := st.res.trySend (proxyErrorResponse e) }

/-- src/index.js lines 208-217: `proxyReq.on('timeout')` — destroy the
outbound request, then answer 504 only when headers are not yet sent. -/
def onProxyTimeout (st : ProxyState) : ProxyState :=
  let st1 := { st with proxyReqDestroyed := true }
  if st1.res.headersSent then st1
  else
    let resp : SentResponse := ⟨504, .errText "Gateway Timeout" "Request to target server timed out"⟩
    { st1 with res := st1.res.trySend resp }

/-- src/index.js lines 226-233: the `catch` around outbound construction. -/
def onSetupThrow (st : ProxyState) : ProxyState :=
  let resp : SentResponse := ⟨500, .errText "Internal Server Error" "Failed to setup proxy request"⟩
  { st with res := st.res.trySend resp }

/-- src/index.js lines 160-173: the success path flushes the upstream
status and the decoded or raw body. -/
def onProxySuccess (status : Nat) (contentTypeHeader : Option String) (raw : String)
    (st : ProxyState) : ProxyState :=
  { st with res := st.res.trySend ⟨status, .upstreamBody (endHandler contentTypeHeader raw)⟩ }

/-- A terminal event of one forwarded request. -/
inductive PTerminalEvent where
  | success (status : Nat) (contentTypeHeader : Option String) (raw : String)
  | errorEv (e : ErrCode)
  | timeoutEv

def stepEvent (st : ProxyState) (ev : PTerminalEvent) : ProxyState :=
  match ev with
  | .success status ct raw => onProxySuccess status ct raw st
  | .errorEv e => onProxyError e st
  | .timeoutEv => onProxyTimeout st

def runEvents (st : ProxyState) (evs : List PTerminalEvent) : ProxyState :=
  evs.foldl stepEvent st

/-- The response the handler of an event flushes when it is first. -/
def eventResponse : PTerminalEvent → SentResponse
  | .success status ct raw => ⟨status, .upstreamBody (endHandler ct raw)⟩
  | .errorEv e => proxyErrorResponse e
  | .timeoutEv => ⟨504, .errText "Gateway Timeout" "Request to target server timed out"⟩

/-! ## Streaming download (src/index.js lines 357-417)

On the upstream response the handler stages the upstream status and the
copied header subset, then writes every received chunk to the caller's
stream as it arrives (`res.write(chunk)`); `end` closes the stream
(`res.end()`), and a mid-stream `error` answers a 500 `Download Error` only
when headers have not been flushed yet.  Headers flush with the first write
(or `end`), so `res.headersSent` is `written ≠ [] ∨ ended ∨ errorSent`.
Bytes are `Nat`s; a chunk is a `List Nat`. -/

/-- src/index.js lines 364-372: header names copied for a download. -/
def dlHeadersToCopy : List String :=
  ["content-type", "content-length", "content-disposition", "accept-ranges",
   "etag", "last-modified", "cache-control"]

/-- `if (proxyRes.headers[h]) res.setHeader(h, ...)`: copy the truthy ones. -/
def dlCopyHeaders (upstream : String → Option String) : List (String × String) :=
  dlHeadersToCopy.filterMap (fun h =>
    match upstream h with
    | some v => if v = "" then none else some (h, v)
    | none => none)

/-- src/index.js lines 381-383: the fixed CORS headers added afterwards. -/
def dlCorsHeaders : List (String × String) :=
  [("Access-Control-Allow-Origin", "*"),
   ("Access-Control-Allow-Methods", "GET, POST, PUT, DELETE, PATCH, OPTIONS"),
   ("Access-Control-Allow-Headers", "Content-Type, Authorization, X-Requested-With, X-Custom-Header, Range")]

/-- `parseInt(proxyRes.headers['content-length'] || '0')`, digits prefix
(the NaN case of a digitless string only affects console logging). -/
def jsParseInt0 (x : Option String) : Nat :=
  digitsToNat ((jsOr x "0").toList.takeWhile isDigitChar)

/-- Caller-visible state of one download response. -/
structure DlRes where
  status : Nat
  headers : List (String × String)
  written : List (List Nat)
  ended : Bool
  errorSent : Option (String × String)
  downloadedBytes : Nat
  fileSize : Nat
  deriving Repr, DecidableEq

def DlRes.headersSent (r : DlRes) : Bool :=
  ¬ r.written = [] || r.ended || r.errorSent.isSome

/-- src/index.js lines 357-388: state after the upstream response arrives:
status and headers are staged before any body event is processed. -/
def dlOnResponse (statusCode : Nat) (upstream : String → Option String) : DlRes :=
  { status := statusCode
    headers := dlCopyHeaders upstream ++ dlCorsHeaders
    written := []
    ended := false
    errorSent := none
    downloadedBytes := 0
    fileSize := jsParseInt0 (upstream "content-length") }

/-- Events of the upstream body stream. -/
inductive DlEvent where
  | dataChunk (chunk : List Nat)
  | endEv
  | errEv
  deriving Repr, DecidableEq

/-- src/index.js lines 390-416: the `data`, `end` and `error` handlers.
Progress computation (lines 394-399) only logs and has no caller-visible
effect beyond `downloadedBytes`. -/
def dlStep (r : DlRes) (ev : DlEvent) : DlRes :=
  match ev with
  | .dataChunk chunk =>
    { r with
      downloadedBytes := r.downloadedBytes + chunk.length
      written := r.written ++ [chunk] }
  | .endEv => { r with ended := true }
  | .errEv =>
    if r.headersSent then r
    else { r with
      status := 500
      errorSent := some ("Download Error", "Failed to stream file from target server") }

def dlRun (statusCode : Nat) (upstream : String → Option String) (evs : List DlEvent) : DlRes :=
  evs.foldl dlStep (dlOnResponse statusCode upstream)

/-! ## WebSocket relay (src/index.js lines 525-614) -/

/-- One side of a relay: open, closed with `close()` (no arguments), or
closed with `close(code, reason)`. -/
structure WSocket where
  closedWith : Option (Option (Nat × String))
  deriving Repr, DecidableEq

/-- `ws.close(...)`: a no-op once the socket is already closing. -/
def WSocket.close (s : WSocket) (arg : Option (Nat × String)) : WSocket :=
  match s.closedWith with
  | some _ => s
  | none => { closedWith := some arg }

structure RelaySession where
  client : WSocket
  target : WSocket
  deriving Repr, DecidableEq

def openSession : RelaySession := { client := ⟨none⟩, target := ⟨none⟩ }

/-- src/index.js lines 573-576: `ws.on('close', (code, reason) =>
targetWs.close())` — the received code and reason are not forwarded. -/
def onClientClose (_code : Nat) (_reason : String) (sess : RelaySession) : RelaySession :=
  { sess with target := sess.target.close none }

/-- src/index.js lines 578-581: `targetWs.on('close', (code, reason) =>
ws.close(code, reason))`. -/
def onTargetClose (code : Nat) (reason : String) (sess : RelaySession) : RelaySession :=
  { sess with client := sess.client.close (some (code, reason)) }

/-- src/index.js lines 584-587: `ws.on('error', ... targetWs.close())`. -/
def onClientError (sess : RelaySession) : RelaySession :=
  { sess with target := sess.target.close none }

/-- src/index.js lines 589-592: `targetWs.on('error', ... ws.close(1011,
'Target WebSocket error'))`. -/
def onTargetError (sess : RelaySession) : RelaySession :=
  { sess with client := sess.client.close (some (1011, "Target WebSocket error")) }

/-! ## WebSocket endpoint routing -/

/-- `targetUrl.match(/^wss?:\/\//)` is truthy iff the string starts with
`ws://` or `wss://`. -/
def wsSchemeMatch (s : String) : Bool :=
  "ws://".toList.isPrefixOf s.toList || "wss://".toList.isPrefixOf s.toList

/-- Outcome of the informational GET /ws-proxy route. -/
inductive WsRouteResult where
  | badRequest
  | info
  deriving Repr, DecidableEq

/-- src/index.js lines 467-498: GET /ws-proxy — 400 when the url parameter
is missing, invalid, or not a ws/wss URL; otherwise an instructions JSON.
This route never opens an outbound connection. -/
def wsProxyRoute (targetUrl : Option String) : WsRouteResult :=
  if ¬ jsTruthy targetUrl then .badRequest
  else
    let u := targetUrl.getD ""
    if ¬ (isValidUrl u && wsSchemeMatch u) then .badRequest
    else .info

/-- Action of the upgrade handler before any socket event. -/
inductive UpgradeAction where
  | reject400
  | attemptConnect (url : String)
  deriving Repr, DecidableEq

/-- src/index.js lines 525-542: the `upgrade` handler — 400 for a missing
`x-target-url` header, otherwise `new WebSocket(targetUrl, ...)` is
constructed directly, starting the outbound connection attempt; no scheme
check happens here. -/
def upgradeHandler (xTargetUrl : Option String) : UpgradeAction :=
  if ¬ jsTruthy xTargetUrl then .reject400
  else .attemptConnect (xTargetUrl.getD "")

end SentraProxy

namespace SentraProxy

/-- C2: for every string s, `isValidUrl s` is true iff s parses as an
absolute URL whose scheme is http, https, ws or wss; every failure mode of
the parse yields `false` (the thrown exception is the `none` branch), as
checked on the spec's three examples. -/
theorem isValidUrl_correct :
    (∀ s : String, isValidUrl s = true ↔
      ∃ u, URL_parse s = some u ∧ u.protocol ∈ ["http:", "https:", "ws:", "wss:"]) ∧
    isValidUrl "https://x.com" = true ∧
    isValidUrl "ftp://x.com" = false ∧
    isValidUrl "not a url" = false := by
  refine ⟨fun s => ?_, by decide, by decide, by decide⟩
  unfold isValidUrl
  cases h : URL_parse s with
  | none => simp
  | some u =>
    simp only [List.contains, List.elem_eq_mem, decide_eq_true_eq]
    constructor
    · intro hm
      exact ⟨u, rfl, by simpa using hm⟩
    · rintro ⟨v, hv, hmem⟩
      cases hv
      simpa using hmem

/-! ### Helper lemmas for the query-string serializer -/

theorem count_eq_one_of_nodup_mem {α : Type} [BEq α] [LawfulBEq α] {l : List α} {a : α}
    (d : l.Nodup) (h : a ∈ l) : l.count a = 1 := by
  induction l with
  | nil => simp at h
  | cons b tl ih =>
    rcases List.mem_cons.mp h with rfl | hmem
    · have hz : tl.count a = 0 := by
        rw [List.count_eq_zero]
        exact (List.nodup_cons.mp d).1
      rw [List.count_cons_self, hz]
    · have hne : a ≠ b := fun e => (List.nodup_cons.mp d).1 (e ▸ hmem)
      rw [List.count_cons_of_ne hne]
      exact ih (List.nodup_cons.mp d).2 hmem

theorem serializePair_pos (kv : String × String) : 0 < (serializePair kv).length := by
  have h1 : ("=" : String).length = 1 := by decide
  have h : (serializePair kv).length =
      (formEncode kv.1).length + 1 + (formEncode kv.2).length := by
    simp [serializePair, String.length_append, h1]
  omega

theorem searchParams_cons_pos (kv : String × String) (l : List (String × String)) :
    0 < (searchParamsToString (kv :: l)).length := by
  cases l with
  | nil => simpa [searchParamsToString, joinAmp] using serializePair_pos kv
  | cons y ys =>
    have h : searchParamsToString (kv :: y :: ys) =
        serializePair kv ++ "&" ++ joinAmp ((y :: ys).map serializePair) := by
      simp [searchParamsToString, joinAmp]
    rw [h]
    have := serializePair_pos kv
    simp [String.length_append]
    omega

theorem searchParamsToString_eq_empty_iff (l : List (String × String)) :
    searchParamsToString l = "" ↔ l = [] := by
  cases l with
  | nil => simp [searchParamsToString, joinAmp]
  | cons kv tl =>
    constructor
    · intro h
      have := searchParams_cons_pos kv tl
      rw [h] at this
      simp at this
    · intro h
      cases h

/-- C10 counterexample: with an inbound request carrying no headers at all,
the download endpoint's outbound headers do not contain the name
X-Requested-With, contradicting the claim's header set for the download
endpoint. -/
theorem downloadHeaders_lack_xRequestedWith :
    ¬ ("X-Requested-With" ∈ (downloadOutboundHeaders (fun _ => none)).map Prod.fst) := by
  simp [downloadOutboundHeaders, jsOr]

/-- C10 (amended): the forwarder's outbound headers always contain
Authorization and X-Requested-With — with value "" when the inbound request
lacks them — and the download endpoint's always contain Authorization and
Range with the same defaults (but never X-Requested-With); of the
forwarder's allow-listed headers, only X-Custom-Header is omitted entirely
when absent or empty. -/
theorem outboundHeaders_defaults (inbound : String → Option String)
    (hA : inbound "authorization" = none)
    (hX : inbound "x-requested-with" = none)
    (hR : inbound "range" = none) :
    ("Authorization", "") ∈ proxyOutboundHeaders inbound ∧
    ("X-Requested-With", "") ∈ proxyOutboundHeaders inbound ∧
    ("Authorization", "") ∈ downloadOutboundHeaders inbound ∧
    ("Range", "") ∈ downloadOutboundHeaders inbound ∧
    "X-Requested-With" ∉ (downloadOutboundHeaders inbound).map Prod.fst ∧
    (∀ inb : String → Option String,
      "Content-Type" ∈ (proxyOutboundHeaders inb).map Prod.fst ∧
      "User-Agent" ∈ (proxyOutboundHeaders inb).map Prod.fst ∧
      "Accept" ∈ (proxyOutboundHeaders inb).map Prod.fst ∧
      "Authorization" ∈ (proxyOutboundHeaders inb).map Prod.fst ∧
      "X-Requested-With" ∈ (proxyOutboundHeaders inb).map Prod.fst ∧
      ("X-Custom-Header" ∈ (proxyOutboundHeaders inb).map Prod.fst ↔
        jsTruthy (inb "x-custom-header") = true)) := by
  refine ⟨?_, ?_, ?_, ?_, ?_, ?_⟩
  · simp [proxyOutboundHeaders, jsOr, hA]
  · simp [proxyOutboundHeaders, jsOr, hX]
  · simp [downloadOutboundHeaders, jsOr, hA]
  · simp [downloadOutboundHeaders, jsOr, hR]
  · simp [downloadOutboundHeaders, jsOr]
  · intro inb
    by_cases h : jsTruthy (inb "x-custom-header") = true <;>
      simp [proxyOutboundHeaders, h, jsOr]

/-- Witness for C10's amended theorem at the header-free inbound request. -/
theorem outboundHeaders_defaults_witness :
    ("Authorization", "") ∈ proxyOutboundHeaders (fun _ => none) ∧
    ("X-Requested-With", "") ∈ proxyOutboundHeaders (fun _ => none) ∧
    ("Range", "") ∈ downloadOutboundHeaders (fun _ => none) := by
  have h := outboundHeaders_defaults (fun _ => none) rfl rfl rfl
  exact ⟨h.1, h.2.1, h.2.2.2.1⟩

/-- C7: under a well-formed inbound query (distinct keys, the target-URL key
present), the length guard drops nothing — the appended pairs are exactly
the non-`url` inbound pairs, each counted exactly once; the query string is
appended with `&` when the derived path already contains `?` and with `?`
otherwise; and for a path of the form pathname ++ search produced by the URL
parser, containing `?` is equivalent to having a non-empty query string. -/
theorem query_append_correct (path : String) (query : List (String × String))
    (hnd : (query.map Prod.fst).Nodup)
    (hurl : "url" ∈ query.map Prod.fst) :
    queryPairsToAppend query = query.filter (fun kv => kv.1 ≠ "url") ∧
    (∀ kv ∈ query, kv.1 ≠ "url" → (queryPairsToAppend query).count kv = 1) ∧
    (query.filter (fun kv => kv.1 ≠ "url") = [] → appendQueryToPath path query = path) ∧
    (query.filter (fun kv => kv.1 ≠ "url") ≠ [] →
      appendQueryToPath path query =
        path ++ (if path.toList.contains '?' then "&" else "?") ++
          searchParamsToString (query.filter (fun kv => kv.1 ≠ "url"))) ∧
    (∀ pathname search : String, ¬ pathname.toList.contains '?' = true →
      (search = "" ∨ search.toList.head? = some '?') →
      ((pathname ++ search).toList.contains '?' = true ↔ search ≠ "")) := by
  have hq : queryPairsToAppend query = query.filter (fun kv => kv.1 ≠ "url") := by
    unfold queryPairsToAppend
    by_cases hlen : query.length > 1
    · simp [hlen]
    · cases query with
      | nil => simp at hurl
      | cons kv tl =>
        cases tl with
        | nil =>
          have hk : "url" = kv.1 := by simpa using hurl
          simp [← hk]
        | cons y ys => simp at hlen
  have happ : appendQueryToPath path query =
      if searchParamsToString (queryPairsToAppend query) = "" then path
      else path ++ (if path.toList.contains '?' then "&" else "?") ++
        searchParamsToString (queryPairsToAppend query) := rfl
  refine ⟨hq, ?_, ?_, ?_, ?_⟩
  · intro kv hmem hne
    rw [hq]
    have hnd' : query.Nodup := hnd.of_map
    have hmem' : kv ∈ query.filter (fun kv => kv.1 ≠ "url") := by
      simp [List.mem_filter, hmem, hne]
    exact count_eq_one_of_nodup_mem (hnd'.filter _) hmem'
  · intro hnil
    rw [happ, hq, hnil]
    simp [searchParamsToString, joinAmp]
  · intro hne
    have hs : ¬ searchParamsToString (query.filter (fun kv => kv.1 ≠ "url")) = "" := by
      rw [searchParamsToString_eq_empty_iff]
      exact hne
    rw [happ, hq, if_neg hs]
  · intro pathname search hp hsearch
    have hsplit : (pathname ++ search).toList = pathname.toList ++ search.toList :=
      String.data_append pathname search
    rw [hsplit]
    simp only [List.contains, List.elem_eq_mem, decide_eq_true_eq, List.mem_append] at hp ⊢
    rcases hsearch with h0 | hh
    · subst h0
      constructor
      · intro hc
        exfalso
        rcases hc with hc | hc
        · exact hp hc
        · exact absurd hc (by decide)
      · intro hne'
        exact absurd rfl hne'
    · constructor
      · intro _ hse
        subst hse
        exact absurd hh (by decide)
      · intro _
        right
        cases hl : search.toList with
        | nil => rw [hl] at hh; exact absurd hh (by simp)
        | cons c cs =>
          rw [hl] at hh
          have hc : c = '?' := by simpa using hh
          subst hc
          exact List.mem_cons_self _ _

/-- C1: a pre-response transport failure of the forwarder is classified
exactly as: connection-refused or host-not-found → 502; a timeout (the
explicit `timeout` event of the 30s deadline, or an ETIMEDOUT transport
error) → 504, with the outbound request actively destroyed by the timeout
handler; any other transport error code, and a thrown error while
constructing the outbound request, → 500. -/
theorem transport_error_classification (st : ProxyState) (h : st.res.sent = none) :
    (onProxyError .ENOTFOUND st).res.sent =
      some ⟨502, .errText "Bad Gateway" "Cannot connect to target server"⟩ ∧
    (onProxyError .ECONNREFUSED st).res.sent =
      some ⟨502, .errText "Bad Gateway" "Cannot connect to target server"⟩ ∧
    (onProxyError .ETIMEDOUT st).res.sent =
      some ⟨504, .errText "Gateway Timeout" "Request to target server timed out"⟩ ∧
    (onProxyTimeout st).res.sent =
      some ⟨504, .errText "Gateway Timeout" "Request to target server timed out"⟩ ∧
    (∀ st2 : ProxyState, (onProxyTimeout st2).proxyReqDestroyed = true) ∧
    (onSetupThrow st).res.sent =
      some ⟨500, .errText "Internal Server Error" "Failed to setup proxy request"⟩ ∧
    (∀ e : ErrCode, e ≠ .ENOTFOUND → e ≠ .ECONNREFUSED → e ≠ .ETIMEDOUT →
      (onProxyError e st).res.sent =
        some ⟨500, .errText "Internal Server Error" "Failed to proxy request"⟩) := by
  refine ⟨?_, ?_, ?_, ?_, ?_, ?_, ?_⟩
  · simp [onProxyError, proxyErrorResponse, Res.trySend, h]
  · simp [onProxyError, proxyErrorResponse, Res.trySend, h]
  · simp [onProxyError, proxyErrorResponse, Res.trySend, h]
  · simp [onProxyTimeout, Res.headersSent, Res.trySend, h]
  · intro st2
    by_cases h2 : st2.res.sent.isSome <;> simp [onProxyTimeout, Res.headersSent, Res.trySend, h2]
  · simp [onSetupThrow, Res.trySend, h]
  · intro e he1 he2 he3
    simp [onProxyError, proxyErrorResponse, Res.trySend, h, he1, he2, he3]

/-- Witness for C1 at the fresh (nothing sent) request state. -/
theorem transport_error_classification_witness :
    (onProxyError .ENOTFOUND initialProxyState).res.sent =
      some ⟨502, .errText "Bad Gateway" "Cannot connect to target server"⟩ ∧
    (onProxyTimeout initialProxyState).proxyReqDestroyed = true ∧
    (onProxyError (.otherCode "ECONNRESET") initialProxyState).res.sent =
      some ⟨500, .errText "Internal Server Error" "Failed to proxy request"⟩ := by
  have h := transport_error_classification initialProxyState rfl
  exact ⟨h.1, h.2.2.2.2.1 initialProxyState,
    h.2.2.2.2.2.2 (.otherCode "ECONNRESET") (by decide) (by decide) (by decide)⟩

/-- C5: over any sequence of terminal events of one forwarded request, the
response flushed to the caller is exactly the first event's response, and
once something has been sent no later event changes it. -/
theorem single_response (evs : List PTerminalEvent) :
    (runEvents initialProxyState evs).res.sent = evs.head?.map eventResponse ∧
    (∀ st : ProxyState, ∀ ev : PTerminalEvent, st.res.sent ≠ none →
      (stepEvent st ev).res.sent = st.res.sent) := by
  have hstep : ∀ (st : ProxyState) (e : PTerminalEvent) (r : SentResponse),
      st.res.sent = some r → (stepEvent st e).res.sent = some r := by
    intro st e r h
    cases e <;>
      simp [stepEvent, onProxySuccess, onProxyError, onProxyTimeout,
        Res.trySend, Res.headersSent, h]
  constructor
  · cases evs with
    | nil => rfl
    | cons ev rest =>
      have h1 : (stepEvent initialProxyState ev).res.sent = some (eventResponse ev) := by
        cases ev <;>
          simp [stepEvent, onProxySuccess, onProxyError, onProxyTimeout,
            initialProxyState, Res.trySend, Res.headersSent, eventResponse]
      have hpres : ∀ (l : List PTerminalEvent) (st : ProxyState) (r : SentResponse),
          st.res.sent = some r → (l.foldl stepEvent st).res.sent = some r := by
        intro l
        induction l with
        | nil => intro st r h; exact h
        | cons e tl ih => intro st r h; exact ih _ _ (hstep st e r h)
      show (rest.foldl stepEvent (stepEvent initialProxyState ev)).res.sent =
        some (eventResponse ev)
      exact hpres rest _ _ h1
  · intro st ev h
    cases hs : st.res.sent with
    | none => exact absurd hs h
    | some r => exact hstep st ev r hs

/-- Witness for C5: the timeout wins over a later error event, and a step
after a sent response leaves it unchanged. -/
theorem single_response_witness :
    (runEvents initialProxyState
        [PTerminalEvent.timeoutEv, PTerminalEvent.errorEv (.otherCode "ECONNRESET")]).res.sent =
      some ⟨504, .errText "Gateway Timeout" "Request to target server timed out"⟩ ∧
    (stepEvent ⟨⟨some ⟨200, .upstreamBody (.rawBody "ok")⟩⟩, false⟩
        PTerminalEvent.timeoutEv).res.sent =
      some ⟨200, .upstreamBody (.rawBody "ok")⟩ := by
  have h := single_response
    [PTerminalEvent.timeoutEv, PTerminalEvent.errorEv (.otherCode "ECONNRESET")]
  constructor
  · rw [h.1]; rfl
  · exact h.2 ⟨⟨some ⟨200, .upstreamBody (.rawBody "ok")⟩⟩, false⟩ PTerminalEvent.timeoutEv
      (by simp)

/-- C4 counterexample: a client-side close with code 1000 and reason "bye"
does not close the target socket with the same code and reason — the
handler calls `targetWs.close()` with no arguments, so propagation is not
symmetric. -/
theorem relay_client_close_drops_code :
    (onClientClose 1000 "bye" openSession).target.closedWith ≠ some (some (1000, "bye")) := by
  decide

/-- C4 (amended): closure propagation is asymmetric.  Target→client: a
close is propagated with the same code and reason, an error closes the
client with code 1011.  Client→target: both a close and an error close the
target with a plain `close()` carrying no code or reason. -/
theorem relay_closure_propagation (sess : RelaySession) (code : Nat) (reason : String)
    (hc : sess.client.closedWith = none) (ht : sess.target.closedWith = none) :
    (onTargetClose code reason sess).client.closedWith = some (some (code, reason)) ∧
    (onTargetError sess).client.closedWith = some (some (1011, "Target WebSocket error")) ∧
    (onClientClose code reason sess).target.closedWith = some none ∧
    (onClientError sess).target.closedWith = some none := by
  refine ⟨?_, ?_, ?_, ?_⟩ <;>
    simp [onTargetClose, onTargetError, onClientClose, onClientError,
      WSocket.close, hc, ht]

/-- Witness for C4's amended theorem on the spec's example session. -/
theorem relay_closure_propagation_witness :
    (onTargetClose 1000 "bye" openSession).client.closedWith = some (some (1000, "bye")) ∧
    (onTargetError openSession).client.closedWith =
      some (some (1011, "Target WebSocket error")) := by
  have h := relay_closure_propagation openSession 1000 "bye" rfl rfl
  exact ⟨h.1, h.2.1⟩

/-- C9 counterexample: at the upgrade endpoint — the endpoint that actually
relays WebSocket traffic — a valid http URL is not rejected: the handler
proceeds to construct the outbound WebSocket client for it. -/
theorem upgrade_accepts_http_url :
    upgradeHandler (some "http://example.com") = .attemptConnect "http://example.com" ∧
    isValidUrl "http://example.com" = true ∧
    wsSchemeMatch "http://example.com" = false := by
  exact ⟨by decide, by decide, by decide⟩

/-- C9 (amended): the informational GET /ws-proxy route rejects with 400
every target URL that does not start with ws:// or wss:// (and never opens
an outbound connection in any case), but the upgrade handler performs no
scheme validation: every non-empty x-target-url of whatever scheme goes
directly to the outbound WebSocket constructor. -/
theorem ws_scheme_validation (u : String) (hne : wsSchemeMatch u = false) :
    wsProxyRoute (some u) = .badRequest ∧
    (∀ v : String, v ≠ "" → upgradeHandler (some v) = .attemptConnect v) := by
  constructor
  · by_cases h0 : u = ""
    · simp [wsProxyRoute, jsTruthy, h0]
    · simp [wsProxyRoute, jsTruthy, h0, hne]
  · intro v hv
    simp [upgradeHandler, jsTruthy, hv]

/-- Witness for C9's amended theorem: the http URL is rejected by the GET
route, and a ws URL reaches the connector at the upgrade endpoint. -/
theorem ws_scheme_validation_witness :
    wsProxyRoute (some "http://example.com") = .badRequest ∧
    upgradeHandler (some "ws://chat.example") = .attemptConnect "ws://chat.example" := by
  have h := ws_scheme_validation "http://example.com" (by decide)
  exact ⟨h.1, h.2 "ws://chat.example" (by decide)⟩

/-- Witness for C7 at a concrete path and query. -/
theorem query_append_correct_witness :
    ((([("url", "https://t.example/a"), ("a", "1")].map Prod.fst).Nodup) ∧
      "url" ∈ [("url", "https://t.example/a"), ("a", "1")].map Prod.fst) ∧
    appendQueryToPath "/a" [("url", "https://t.example/a"), ("a", "1")] = "/a?a=1" := by
  refine ⟨⟨by decide, by decide⟩, ?_⟩
  have h := query_append_correct "/a" [("url", "https://t.example/a"), ("a", "1")]
    (by decide) (by decide)
  have h4 := h.2.2.2.1 (by decide)
  rw [h4]
  decide

/-! ### Helper lemma for the download stream -/

theorem dlRun_data (r : DlRes) (cs : List (List Nat)) :
    (cs.map DlEvent.dataChunk).foldl dlStep r =
      { r with
        written := r.written ++ cs
        downloadedBytes := r.downloadedBytes + cs.flatten.length } := by
  induction cs generalizing r with
  | nil => simp
  | cons c tl ih =>
    simp only [List.map_cons, List.foldl_cons, dlStep]
    rw [ih]
    simp [List.append_assoc]
    omega

/-- C3: for every chunking of an upstream body of L declared and actual
bytes, the caller-observed stream is the upstream bytes, byte for byte and
in order; after every prefix of the body the chunks received so far have
already been written (no whole-body buffering), with the upstream status
and the copied header subset staged before any body event; and the
upstream `end` closes the caller's stream. -/
theorem download_stream_correct (statusCode : Nat) (upstream : String → Option String)
    (chunks : List (List Nat)) (L : Nat)
    (hdecl : jsParseInt0 (upstream "content-length") = L)
    (hlen : chunks.flatten.length = L) :
    (dlRun statusCode upstream (chunks.map DlEvent.dataChunk ++ [DlEvent.endEv])).written.flatten =
      chunks.flatten ∧
    (dlRun statusCode upstream (chunks.map DlEvent.dataChunk ++ [DlEvent.endEv])).written.flatten.length = L ∧
    (dlRun statusCode upstream (chunks.map DlEvent.dataChunk ++ [DlEvent.endEv])).ended = true ∧
    (dlRun statusCode upstream (chunks.map DlEvent.dataChunk ++ [DlEvent.endEv])).fileSize = L ∧
    (∀ k : Nat,
      (dlRun statusCode upstream ((chunks.take k).map DlEvent.dataChunk)).written = chunks.take k ∧
      (dlRun statusCode upstream ((chunks.take k).map DlEvent.dataChunk)).status = statusCode ∧
      (dlRun statusCode upstream ((chunks.take k).map DlEvent.dataChunk)).headers =
        dlCopyHeaders upstream ++ dlCorsHeaders ∧
      (dlRun statusCode upstream ((chunks.take k).map DlEvent.dataChunk)).ended = false) := by
  have hfull : dlRun statusCode upstream (chunks.map DlEvent.dataChunk ++ [DlEvent.endEv]) =
      { dlOnResponse statusCode upstream with
        written := chunks
        downloadedBytes := chunks.flatten.length
        ended := true } := by
    unfold dlRun
    rw [List.foldl_append, dlRun_data]
    simp [dlOnResponse, dlStep]
  have hpre : ∀ k : Nat, dlRun statusCode upstream ((chunks.take k).map DlEvent.dataChunk) =
      { dlOnResponse statusCode upstream with
        written := chunks.take k
        downloadedBytes := (chunks.take k).flatten.length } := by
    intro k
    unfold dlRun
    rw [dlRun_data]
    simp [dlOnResponse]
  refine ⟨?_, ?_, ?_, ?_, ?_⟩
  · rw [hfull]
  · rw [hfull]; exact hlen
  · rw [hfull]
  · rw [hfull]; simpa [dlOnResponse] using hdecl
  · intro k
    refine ⟨?_, ?_, ?_, ?_⟩ <;> (rw [hpre k]; try simp [dlOnResponse])

/-- Witness for C3 on a two-chunk three-byte body. -/
theorem download_stream_correct_witness :
    (dlRun 200 (fun h => if h = "content-length" then some "3" else none)
        ([[1, 2], [3]].map DlEvent.dataChunk ++ [DlEvent.endEv])).written.flatten = [1, 2, 3] ∧
    (dlRun 200 (fun h => if h = "content-length" then some "3" else none)
        ([[1, 2], [3]].map DlEvent.dataChunk ++ [DlEvent.endEv])).ended = true := by
  have h := download_stream_correct 200
    (fun h => if h = "content-length" then some "3" else none) [[1, 2], [3]] 3
    (by decide) (by decide)
  exact ⟨h.1, h.2.2.1⟩

/-- C8: when the upstream body stream errors mid-transfer, a download that
has sent nothing yet answers the 500 `Download Error` response, and a
download that has already written bytes is left exactly as it was: no
further write and no status change. -/
theorem download_midstream_error (statusCode : Nat) (upstream : String → Option String)
    (chunks : List (List Nat)) :
    (chunks = [] →
      dlRun statusCode upstream (chunks.map DlEvent.dataChunk ++ [DlEvent.errEv]) =
        { dlOnResponse statusCode upstream with
          status := 500
          errorSent := some ("Download Error", "Failed to stream file from target server") }) ∧
    (chunks ≠ [] →
      dlRun statusCode upstream (chunks.map DlEvent.dataChunk ++ [DlEvent.errEv]) =
        dlRun statusCode upstream (chunks.map DlEvent.dataChunk)) := by
  have hpre : dlRun statusCode upstream (chunks.map DlEvent.dataChunk) =
      { dlOnResponse statusCode upstream with
        written := chunks
        downloadedBytes := chunks.flatten.length } := by
    unfold dlRun
    rw [dlRun_data]
    simp [dlOnResponse]
  have hsplit : dlRun statusCode upstream (chunks.map DlEvent.dataChunk ++ [DlEvent.errEv]) =
      dlStep (dlRun statusCode upstream (chunks.map DlEvent.dataChunk)) DlEvent.errEv := by
    unfold dlRun
    rw [List.foldl_append]
    rfl
  constructor
  · intro h0
    subst h0
    rw [hsplit, hpre]
    simp [dlStep, DlRes.headersSent, dlOnResponse]
  · intro hne
    rw [hsplit, hpre]
    simp [dlStep, DlRes.headersSent, hne]

/-- Witness for C8: an immediate error yields the 500 response; an error
after one written chunk changes nothing. -/
theorem download_midstream_error_witness :
    dlRun 200 (fun _ => none) [DlEvent.errEv] =
      { dlOnResponse 200 (fun _ => none) with
        status := 500
        errorSent := some ("Download Error", "Failed to stream file from target server") } ∧
    dlRun 200 (fun _ => none) [DlEvent.dataChunk [7], DlEvent.errEv] =
      dlRun 200 (fun _ => none) [DlEvent.dataChunk [7]] := by
  constructor
  · exact (download_midstream_error 200 (fun _ => none) []).1 rfl
  · exact (download_midstream_error 200 (fun _ => none) [[7]]).2 (by decide)

/-! ### JSON round-trip: decimal digits -/

theorem digitChar_is_digit (n : Nat) (h : n < 10) : isDigitChar (digitChar n) = true := by
  interval_cases n <;> decide

theorem digitChar_val (n : Nat) (h : n < 10) : (digitChar n).toNat - 48 = n := by
  interval_cases n <;> decide

theorem digitsToNat_append_single (ds : List Char) (c : Char) :
    digitsToNat (ds ++ [c]) = digitsToNat ds * 10 + (c.toNat - 48) := by
  simp [digitsToNat, List.foldl_append]

theorem natToDigitsAux_spec : ∀ f n : Nat, n < f →
    natToDigitsAux f n ≠ [] ∧ (natToDigitsAux f n).all isDigitChar = true ∧
    digitsToNat (natToDigitsAux f n) = n := by
  intro f
  induction f with
  | zero => intro n h; omega
  | succ f ih =>
    intro n h
    by_cases h10 : n < 10
    · refine ⟨by simp [natToDigitsAux, h10], ?_, ?_⟩
      · simp [natToDigitsAux, h10, List.all_cons, digitChar_is_digit n h10]
      · simp [natToDigitsAux, h10, digitsToNat, digitChar_val n h10]
    · have hd : n / 10 < f := by omega
      obtain ⟨hne, hall, hval⟩ := ih (n / 10) hd
      have hm : n % 10 < 10 := Nat.mod_lt _ (by omega)
      refine ⟨by simp [natToDigitsAux, h10], ?_, ?_⟩
      · simp [natToDigitsAux, h10, List.all_append, hall, List.all_cons,
          digitChar_is_digit _ hm]
      · rw [show natToDigitsAux (f + 1) n =
          natToDigitsAux f (n / 10) ++ [digitChar (n % 10)] by simp [natToDigitsAux, h10]]
        rw [digitsToNat_append_single, hval, digitChar_val _ hm]
        omega

theorem natToDigits_spec (n : Nat) :
    natToDigits n ≠ [] ∧ (natToDigits n).all isDigitChar = true ∧
    digitsToNat (natToDigits n) = n :=
  natToDigitsAux_spec (n + 1) n (Nat.lt_succ_self n)

theorem jnumToChars_ne_nil (n : Int) : jnumToChars n ≠ [] := by
  cases n with
  | ofNat m => exact (natToDigits_spec m).1
  | negSucc m => simp [jnumToChars]

theorem takeWhile_digits_append (ds rest : List Char)
    (hall : ds.all isDigitChar = true)
    (hrest : ∀ c, rest.head? = some c → isDigitChar c = false) :
    (ds ++ rest).takeWhile isDigitChar = ds ∧ (ds ++ rest).dropWhile isDigitChar = rest := by
  induction ds with
  | nil =>
    simp only [List.nil_append]
    cases rest with
    | nil => simp
    | cons c cs =>
      have hc := hrest c rfl
      simp [List.takeWhile_cons, List.dropWhile_cons, hc]
  | cons d ds ih =>
    simp only [List.all_cons, Bool.and_eq_true] at hall
    obtain ⟨hd, hds⟩ := hall
    obtain ⟨h1, h2⟩ := ih hds
    simp [List.takeWhile_cons, List.dropWhile_cons, hd, h1, h2]

theorem parseIntLit_jnum (n : Int) (rest : List Char)
    (hrest : ∀ c, rest.head? = some c → isDigitChar c = false) :
    parseIntLit (jnumToChars n ++ rest) = some (n, rest) := by
  cases n with
  | ofNat m =>
    obtain ⟨hne, hall, hval⟩ := natToDigits_spec m
    obtain ⟨c, cs, hc⟩ := List.exists_cons_of_ne_nil hne
    have hcd : isDigitChar c = true := by
      have := hall
      rw [hc] at this
      simp only [List.all_cons, Bool.and_eq_true] at this
      exact this.1
    have hsplit : jnumToChars (Int.ofNat m) ++ rest = c :: (cs ++ rest) := by
      show natToDigits m ++ rest = c :: (cs ++ rest)
      rw [hc]
      simp
    rw [hsplit]
    have hcm : ¬ c = '-' := by
      intro h0
      rw [h0] at hcd
      simp [isDigitChar] at hcd
    have htw := takeWhile_digits_append (natToDigits m) rest hall hrest
    have hcons : c :: (cs ++ rest) = natToDigits m ++ rest := by
      rw [hc]
      simp
    simp only [parseIntLit, hcm, if_false]
    rw [hcons, htw.1, htw.2]
    simp [hne, hval]
  | negSucc m =>
    obtain ⟨hne, hall, hval⟩ := natToDigits_spec (m + 1)
    have htw := takeWhile_digits_append (natToDigits (m + 1)) rest hall hrest
    simp only [jnumToChars, List.cons_append, parseIntLit, if_pos rfl]
    rw [htw.1, htw.2]
    simp [hne, hval]
    rw [Int.negSucc_eq]
    ring

/-! ### JSON round-trip: strings, heads, weights -/

theorem parseStrChars_plain (cs rest : List Char)
    (h : cs.all (fun c => c ≠ '"' && c ≠ '\\' && 31 < c.toNat) = true) :
    parseStrChars (cs ++ '"' :: rest) = some (cs, rest) := by
  induction cs with
  | nil =>
    simp only [List.nil_append]
    rw [parseStrChars.eq_def]
    simp
  | cons c cs ih =>
    simp only [List.all_cons, Bool.and_eq_true, decide_eq_true_eq] at h
    obtain ⟨⟨⟨h1, h2⟩, h3⟩, h4⟩ := h
    simp only [List.cons_append]
    rw [parseStrChars.eq_def]
    simp only []
    rw [if_neg h1, if_neg h2, if_neg (by omega : ¬ c.toNat < 32), ih h4]
    rfl

theorem skipWs_cons_false (c : Char) (cs : List Char) (h : isJsonWs c = false) :
    skipWs (c :: cs) = c :: cs := by
  simp [skipWs, List.dropWhile_cons, h]

theorem mk_toList (s : String) : String.mk s.toList = s := by
  cases s
  rfl

theorem goodHead_props (c : Char) (h : goodHead c = true) :
    isJsonWs c = false ∧ ¬ c = ']' ∧ ¬ c = '\x7d' ∧ ¬ c = ',' ∧ ¬ c = ':' := by
  simp only [goodHead, Bool.and_eq_true] at h
  refine ⟨?_, ?_, ?_, ?_, ?_⟩
  · have h1 := h.1.1.1.1
    simpa using h1
  · have h2 := h.1.1.1.2
    simpa using h2
  · have h3 := h.1.1.2
    simpa using h3
  · have h4 := h.1.2
    simpa using h4
  · have h5 := h.2
    simpa using h5

theorem stringify_head (v : JVal) : ∃ c cs, stringifyJc v = c :: cs ∧ goodHead c = true := by
  cases v with
  | jnull => exact ⟨'n', ['u', 'l', 'l'], by simp [stringifyJc], by decide⟩
  | jbool b =>
    cases b with
    | false => exact ⟨'f', ['a', 'l', 's', 'e'], by simp [stringifyJc], by decide⟩
    | true => exact ⟨'t', ['r', 'u', 'e'], by simp [stringifyJc], by decide⟩
  | jnum n =>
    cases n with
    | ofNat m =>
      obtain ⟨hne, hall, _⟩ := natToDigits_spec m
      obtain ⟨c, cs, hc⟩ := List.exists_cons_of_ne_nil hne
      have hcd : isDigitChar c = true := by
        rw [hc] at hall
        simp only [List.all_cons, Bool.and_eq_true] at hall
        exact hall.1
      refine ⟨c, cs, ?_, ?_⟩
      · rw [show stringifyJc (.jnum (Int.ofNat m)) = natToDigits m by simp [stringifyJc, jnumToChars]]
        exact hc
      · simp only [isDigitChar, Bool.or_eq_true, decide_eq_true_eq] at hcd
        rcases hcd with ((((((((rfl | rfl) | rfl) | rfl) | rfl) | rfl) | rfl) | rfl) | rfl) | rfl <;>
          decide
    | negSucc m =>
      exact ⟨'-', natToDigits (m + 1), by simp [stringifyJc, jnumToChars], by decide⟩
  | jstr s => exact ⟨'"', s.toList ++ ['"'], by simp [stringifyJc], by decide⟩
  | jarr l => exact ⟨'[', stringifyListc l ++ [']'], by simp [stringifyJc], by decide⟩
  | jobj m => exact ⟨'\x7b', stringifyMembersc m ++ ['\x7d'], by simp [stringifyJc], by decide⟩

theorem stringifyListc_cons (v : JVal) (vs : List JVal) :
    ∃ tail, stringifyListc (v :: vs) = stringifyJc v ++ tail := by
  cases vs with
  | nil => exact ⟨[], by simp [stringifyListc]⟩
  | cons w ws => exact ⟨',' :: stringifyListc (w :: ws), by simp [stringifyListc]⟩

theorem stringifyListc_head (v : JVal) (vs : List JVal) (X : List Char) :
    ∃ c cs, stringifyListc (v :: vs) ++ X = c :: cs ∧ goodHead c = true := by
  obtain ⟨tail, ht⟩ := stringifyListc_cons v vs
  obtain ⟨c, cs, hc, hg⟩ := stringify_head v
  refine ⟨c, cs ++ tail ++ X, ?_, hg⟩
  rw [ht, hc]
  simp

theorem jnumToChars_all_or (n : Int) :
    ∀ rest : List Char, ∃ c cs, jnumToChars n ++ rest = c :: cs := by
  intro rest
  obtain ⟨c, cs, hc⟩ := List.exists_cons_of_ne_nil (jnumToChars_ne_nil n)
  exact ⟨c, cs ++ rest, by rw [hc]; simp⟩

theorem weightJ_pos (v : JVal) : 1 ≤ weightJ v := by
  cases v <;> simp [weightJ]

theorem weightListJ_pos (l : List JVal) (h : l ≠ []) : 1 ≤ weightListJ l := by
  cases l with
  | nil => exact absurd rfl h
  | cons v vs =>
    have := weightJ_pos v
    simp [weightListJ]
    omega

theorem weightMembersJ_pos (m : List (String × JVal)) (h : m ≠ []) : 1 ≤ weightMembersJ m := by
  cases m with
  | nil => exact absurd rfl h
  | cons kv ms =>
    have := weightJ_pos kv.2
    cases kv
    simp [weightMembersJ]
    omega

/-! The parser fuel needed for a value never exceeds its printed length. -/
mutual
theorem weightJ_le_len : (v : JVal) → weightJ v ≤ (stringifyJc v).length
  | .jnull => by simp [weightJ, stringifyJc]
  | .jbool b => by cases b <;> simp [weightJ, stringifyJc]
  | .jnum n => by
    have h : 1 ≤ (jnumToChars n).length :=
      List.length_pos.mpr (jnumToChars_ne_nil n)
    simpa [weightJ, stringifyJc] using h
  | .jstr s => by simp [weightJ, stringifyJc]
  | .jarr l => by
    have h := weightListJ_le_len l
    simp only [weightJ, stringifyJc, List.length_cons, List.length_append]
    simp at h ⊢
    omega
  | .jobj m => by
    have h := weightMembersJ_le_len m
    simp only [weightJ, stringifyJc, List.length_cons, List.length_append]
    simp at h ⊢
    omega
theorem weightListJ_le_len : (l : List JVal) → weightListJ l ≤ (stringifyListc l).length + 1
  | [] => by simp [weightListJ, stringifyListc]
  | [v] => by
    have h := weightJ_le_len v
    simp [weightListJ, stringifyListc]
    omega
  | v :: w :: ws => by
    have h1 := weightJ_le_len v
    have h2 := weightListJ_le_len (w :: ws)
    simp only [weightListJ] at h2 ⊢
    simp only [stringifyListc, List.length_append, List.length_cons]
    omega
theorem weightMembersJ_le_len :
    (m : List (String × JVal)) → weightMembersJ m ≤ (stringifyMembersc m).length + 1
  | [] => by simp [weightMembersJ, stringifyMembersc]
  | [(k, v)] => by
    have h := weightJ_le_len v
    simp [weightMembersJ, stringifyMembersc]
    omega
  | (k, v) :: kv :: ms => by
    have h1 := weightJ_le_len v
    have h2 := weightMembersJ_le_len (kv :: ms)
    obtain ⟨k2, v2⟩ := kv
    simp only [weightMembersJ] at h2 ⊢
    simp only [stringifyMembersc, List.length_append, List.length_cons]
    omega
end

/-! ### JSON round-trip: the main induction -/

theorem litHead_not_digit (c0 : Char) (h : isDigitChar c0 = false) (tl : List Char) :
    ∀ c, (c0 :: tl).head? = some c → isDigitChar c = false := by
  intro c hc
  simp at hc
  subst hc
  exact h

theorem jnum_head (n : Int) (rest : List Char) :
    ∃ c cs0, jnumToChars n ++ rest = c :: cs0 ∧ (isDigitChar c = true ∨ c = '-') := by
  cases n with
  | ofNat m =>
    obtain ⟨hne, hall, _⟩ := natToDigits_spec m
    obtain ⟨c, cs, hc⟩ := List.exists_cons_of_ne_nil hne
    have hcd : isDigitChar c = true := by
      rw [hc] at hall
      simp only [List.all_cons, Bool.and_eq_true] at hall
      exact hall.1
    refine ⟨c, cs ++ rest, ?_, Or.inl hcd⟩
    rw [show jnumToChars (Int.ofNat m) = natToDigits m by simp [jnumToChars], hc]
    simp
  | negSucc m =>
    refine ⟨'-', natToDigits (m + 1) ++ rest, ?_, Or.inr rfl⟩
    simp [jnumToChars]

theorem parseJVal_succ_num (f : Nat) (c : Char) (cs0 : List Char)
    (hhead : isDigitChar c = true ∨ c = '-') :
    parseJVal (f + 1) (c :: cs0) =
      (parseIntLit (c :: cs0)).map (fun p => (JVal.jnum p.1, p.2)) := by
  have hfacts : isJsonWs c = false ∧ ¬ c = 'n' ∧ ¬ c = 't' ∧ ¬ c = 'f' ∧ ¬ c = '"' ∧
      ¬ c = '[' ∧ ¬ c = '\x7b' := by
    rcases hhead with hd | rfl
    · simp only [isDigitChar, Bool.or_eq_true, decide_eq_true_eq] at hd
      rcases hd with ((((((((rfl | rfl) | rfl) | rfl) | rfl) | rfl) | rfl) | rfl) | rfl) | rfl <;>
        exact ⟨by decide, by decide, by decide, by decide, by decide, by decide, by decide⟩
    · exact ⟨by decide, by decide, by decide, by decide, by decide, by decide, by decide⟩
  obtain ⟨h0, h1, h2, h3, h4, h5, h6⟩ := hfacts
  simp only [parseJVal]
  rw [skipWs_cons_false _ _ h0]
  simp only [if_neg h1, if_neg h2, if_neg h3, if_neg h4, if_neg h5, if_neg h6]

theorem stringifyMembersc_cons_head (kv : String × JVal) (ms : List (String × JVal)) :
    ∃ Y, stringifyMembersc (kv :: ms) = '"' :: Y := by
  obtain ⟨k, v⟩ := kv
  cases ms with
  | nil => exact ⟨k.toList ++ '"' :: ':' :: stringifyJc v, by simp [stringifyMembersc]⟩
  | cons kv2 ms2 =>
    exact ⟨(k.toList ++ '"' :: ':' :: stringifyJc v) ++ ',' :: stringifyMembersc (kv2 :: ms2),
      by simp [stringifyMembersc]⟩

theorem parse_stringify_aux (f : Nat) :
    (∀ (v : JVal) (rest : List Char), wfJ v = true → weightJ v ≤ f →
      (∀ c, rest.head? = some c → isDigitChar c = false) →
      parseJVal f (stringifyJc v ++ rest) = some (v, rest)) ∧
    (∀ (l : List JVal) (rest : List Char), l ≠ [] → wfListJ l = true → weightListJ l ≤ f →
      parseElems f (stringifyListc l ++ ']' :: rest) = some (l, rest)) ∧
    (∀ (m : List (String × JVal)) (rest : List Char), m ≠ [] → wfMembersJ m = true →
      weightMembersJ m ≤ f →
      parseMembers f (stringifyMembersc m ++ '\x7d' :: rest) = some (m, rest)) := by
  induction f with
  | zero =>
    refine ⟨fun v rest _ hw _ => absurd hw ?_, fun l rest hne _ hw => absurd hw ?_,
      fun m rest hne _ hw => absurd hw ?_⟩
    · have := weightJ_pos v
      omega
    · have := weightListJ_pos l hne
      omega
    · have := weightMembersJ_pos m hne
      omega
  | succ f ih =>
    obtain ⟨ih1, ih2, ih3⟩ := ih
    refine ⟨?_, ?_, ?_⟩
    · intro v rest hwf hw hrest
      cases v with
      | jnull =>
        rw [show stringifyJc .jnull ++ rest = 'n' :: 'u' :: 'l' :: 'l' :: rest by
          simp [stringifyJc]]
        simp only [parseJVal]
        rw [skipWs_cons_false _ _ (by decide)]
        simp [expectPre, List.isPrefixOf]
      | jbool b =>
        cases b with
        | true =>
          rw [show stringifyJc (.jbool true) ++ rest = 't' :: 'r' :: 'u' :: 'e' :: rest by
            simp [stringifyJc]]
          simp only [parseJVal]
          rw [skipWs_cons_false _ _ (by decide)]
          simp [expectPre, List.isPrefixOf]
        | false =>
          rw [show stringifyJc (.jbool false) ++ rest = 'f' :: 'a' :: 'l' :: 's' :: 'e' :: rest by
            simp [stringifyJc]]
          simp only [parseJVal]
          rw [skipWs_cons_false _ _ (by decide)]
          simp [expectPre, List.isPrefixOf]
      | jnum n =>
        obtain ⟨c, cs0, hc, hhead⟩ := jnum_head n rest
        rw [show stringifyJc (.jnum n) ++ rest = c :: cs0 by
          rw [show stringifyJc (.jnum n) = jnumToChars n by simp [stringifyJc]]
          exact hc]
        rw [parseJVal_succ_num f c cs0 hhead, ← hc, parseIntLit_jnum n rest hrest]
        rfl
      | jstr s =>
        have hps : plainStr s = true := by simpa [wfJ] using hwf
        rw [show stringifyJc (.jstr s) ++ rest = '"' :: (s.toList ++ '"' :: rest) by
          simp [stringifyJc]]
        simp only [parseJVal]
        rw [skipWs_cons_false _ _ (by decide)]
        simp only [reduceIte]
        rw [parseStrChars_plain s.toList rest (by simpa [plainStr] using hps)]
        simp [mk_toList]
      | jarr l =>
        cases l with
        | nil =>
          rw [show stringifyJc (.jarr []) ++ rest = '[' :: ']' :: rest by
            simp [stringifyJc, stringifyListc]]
          simp only [parseJVal]
          rw [skipWs_cons_false _ _ (by decide)]
          simp [skipWs_cons_false _ _ (by decide : isJsonWs ']' = false)]
        | cons v vs =>
          obtain ⟨c0, cs0, he, hg⟩ := stringifyListc_head v vs (']' :: rest)
          obtain ⟨hnws, hne1, hne2, hne3, hne4⟩ := goodHead_props c0 hg
          have hwl : weightListJ (v :: vs) ≤ f := by
            simp only [weightJ] at hw
            omega
          have hwfl : wfListJ (v :: vs) = true := by simpa [wfJ] using hwf
          rw [show stringifyJc (.jarr (v :: vs)) ++ rest =
              '[' :: (stringifyListc (v :: vs) ++ ']' :: rest) by simp [stringifyJc]]
          simp only [parseJVal]
          rw [skipWs_cons_false _ _ (by decide)]
          simp only [reduceIte]
          rw [he, skipWs_cons_false _ _ hnws]
          simp only [List.head?]
          rw [if_neg (show ¬ (some c0 = some (']' : Char)) by simp [hne1])]
          rw [← he, ih2 (v :: vs) rest (by simp) hwfl hwl]
          rfl
      | jobj m =>
        cases m with
        | nil =>
          rw [show stringifyJc (.jobj []) ++ rest = '\x7b' :: '\x7d' :: rest by
            simp [stringifyJc, stringifyMembersc]]
          simp only [parseJVal]
          rw [skipWs_cons_false _ _ (by decide)]
          simp [skipWs_cons_false _ _ (by decide : isJsonWs '\x7d' = false)]
        | cons kv ms =>
          obtain ⟨Y, hY⟩ := stringifyMembersc_cons_head kv ms
          have hwm : weightMembersJ (kv :: ms) ≤ f := by
            simp only [weightJ] at hw
            omega
          have hwfm : wfMembersJ (kv :: ms) = true := by simpa [wfJ] using hwf
          rw [show stringifyJc (.jobj (kv :: ms)) ++ rest =
              '\x7b' :: (stringifyMembersc (kv :: ms) ++ '\x7d' :: rest) by simp [stringifyJc]]
          simp only [parseJVal]
          rw [skipWs_cons_false _ _ (by decide)]
          simp only [reduceIte]
          rw [hY]
          simp only [List.cons_append]
          rw [skipWs_cons_false _ _ (by decide)]
          simp only [List.head?]
          rw [if_neg (by decide : ¬ (some ('"' : Char) = some ('\x7d' : Char)))]
          have H := ih3 (kv :: ms) rest (by simp) hwfm hwm
          rw [hY] at H
          simp only [List.cons_append] at H
          rw [H]
          rfl
    · intro l rest hne hwfl hwl
      cases l with
      | nil => exact absurd rfl hne
      | cons v vs =>
        have hwfv : wfJ v = true ∧ wfListJ vs = true := by
          simpa [wfListJ, Bool.and_eq_true] using hwfl
        simp only [weightListJ] at hwl
        cases vs with
        | nil =>
          rw [show stringifyListc [v] ++ ']' :: rest = stringifyJc v ++ ']' :: rest by
            simp [stringifyListc]]
          simp only [parseElems]
          rw [ih1 v (']' :: rest) hwfv.1 (by omega) (litHead_not_digit ']' (by decide) rest)]
          simp [skipWs_cons_false _ _ (by decide : isJsonWs ']' = false)]
        | cons w ws =>
          rw [show stringifyListc (v :: w :: ws) ++ ']' :: rest =
              stringifyJc v ++ ',' :: (stringifyListc (w :: ws) ++ ']' :: rest) by
            simp [stringifyListc]]
          simp only [parseElems]
          rw [ih1 v (',' :: (stringifyListc (w :: ws) ++ ']' :: rest)) hwfv.1 (by omega)
            (litHead_not_digit ',' (by decide) _)]
          simp [skipWs_cons_false _ _ (by decide : isJsonWs ',' = false),
            ih2 (w :: ws) rest (by simp) hwfv.2 (by omega)]
    · intro m rest hne hwfm hwm
      cases m with
      | nil => exact absurd rfl hne
      | cons kv ms =>
        obtain ⟨k, v⟩ := kv
        have hwfkv : plainStr k = true ∧ wfJ v = true ∧ wfMembersJ ms = true := by
          simpa [wfMembersJ, Bool.and_eq_true, and_assoc] using hwfm
        simp only [weightMembersJ] at hwm
        cases ms with
        | nil =>
          rw [show stringifyMembersc [(k, v)] ++ '\x7d' :: rest =
              '"' :: (k.toList ++ '"' :: (':' :: (stringifyJc v ++ '\x7d' :: rest))) by
            simp [stringifyMembersc]]
          simp only [parseMembers]
          rw [skipWs_cons_false _ _ (by decide)]
          simp only [reduceIte]
          rw [parseStrChars_plain k.toList (':' :: (stringifyJc v ++ '\x7d' :: rest))
            (by simpa [plainStr] using hwfkv.1)]
          simp only [Option.map_some]
          rw [skipWs_cons_false _ _ (by decide : isJsonWs ':' = false)]
          simp only [List.head?, List.drop_one, List.tail_cons, reduceIte]
          rw [ih1 v ('\x7d' :: rest) hwfkv.2.1 (by omega)
            (litHead_not_digit '\x7d' (by decide) rest)]
          simp [skipWs_cons_false _ _ (by decide : isJsonWs '\x7d' = false), mk_toList]
        | cons kv2 ms2 =>
          rw [show stringifyMembersc ((k, v) :: kv2 :: ms2) ++ '\x7d' :: rest =
              '"' :: (k.toList ++ '"' :: (':' :: (stringifyJc v ++
                ',' :: (stringifyMembersc (kv2 :: ms2) ++ '\x7d' :: rest)))) by
            simp [stringifyMembersc]]
          simp only [parseMembers]
          rw [skipWs_cons_false _ _ (by decide)]
          simp only [reduceIte]
          rw [parseStrChars_plain k.toList
            (':' :: (stringifyJc v ++ ',' :: (stringifyMembersc (kv2 :: ms2) ++ '\x7d' :: rest)))
            (by simpa [plainStr] using hwfkv.1)]
          simp only [Option.map_some]
          rw [skipWs_cons_false _ _ (by decide : isJsonWs ':' = false)]
          simp only [List.head?, List.drop_one, List.tail_cons, reduceIte]
          rw [ih1 v (',' :: (stringifyMembersc (kv2 :: ms2) ++ '\x7d' :: rest)) hwfkv.2.1
            (by omega) (litHead_not_digit ',' (by decide) _)]
          simp [skipWs_cons_false _ _ (by decide : isJsonWs ',' = false),
            ih3 (kv2 :: ms2) rest (by simp) hwfkv.2.2 (by omega), mk_toList]

/-- `JSON.parse` undoes `JSON.stringify` on every value of the modelled
JSON fragment. -/
theorem JSON_parse_stringify (v : JVal) (h : wfJ v = true) :
    JSON_parse (stringifyJ v) = some v := by
  have hl : (stringifyJ v).length = (stringifyJc v).length := by
    simp [stringifyJ]
  have hw : weightJ v ≤ (stringifyJ v).length + 1 := by
    have := weightJ_le_len v
    omega
  have hp := (parse_stringify_aux ((stringifyJ v).length + 1)).1 v [] h hw
    (by intro c hc; simp at hc)
  rw [List.append_nil] at hp
  unfold JSON_parse
  have htl : (stringifyJ v).toList = stringifyJc v := rfl
  rw [htl, hp]
  simp [skipWs]

/-- C6: on a successful forwarder response whose content-type contains
`application/json`, the fully buffered body is decoded and the structured
value is returned; on decode failure, or for any other content-type, the
raw bytes are returned unchanged — so a JSON payload (in the modelled
fragment) echoed back by the target with `content-type: application/json`
round-trips to a structured body equal to the original payload. -/
theorem json_decode_behavior :
    (∀ (ct : Option String) (raw : String) (v : JVal),
      jsIncludes (jsOr ct "") "application/json" = true → JSON_parse raw = some v →
      endHandler ct raw = .jsonBody v) ∧
    (∀ (ct : Option String) (raw : String),
      jsIncludes (jsOr ct "") "application/json" = true → JSON_parse raw = none →
      endHandler ct raw = .rawBody raw) ∧
    (∀ (ct : Option String) (raw : String),
      jsIncludes (jsOr ct "") "application/json" = false →
      endHandler ct raw = .rawBody raw) ∧
    (∀ payload : JVal, wfJ payload = true →
      endHandler (some "application/json") (stringifyJ payload) = .jsonBody payload) := by
  have hinc : jsIncludes (jsOr (some "application/json") "") "application/json" = true := by
    decide
  refine ⟨?_, ?_, ?_, ?_⟩
  · intro ct raw v hct hp
    simp [endHandler, hct, hp]
  · intro ct raw hct hp
    simp [endHandler, hct, hp]
  · intro ct raw hct
    simp [endHandler, hct]
  · intro payload hwf
    have hp := JSON_parse_stringify payload hwf
    simp [endHandler, hinc, hp]

/-- Witness for C6: the spec's echoed-JSON example on a concrete payload,
and the raw fallback on a non-JSON content-type. -/
theorem json_decode_behavior_witness :
    endHandler (some "application/json") (stringifyJ (JVal.jobj [("a", JVal.jnum 1)])) =
      .jsonBody (JVal.jobj [("a", JVal.jnum 1)]) ∧
    endHandler (some "text/html") "x" = .rawBody "x" := by
  constructor
  · exact json_decode_behavior.2.2.2 (JVal.jobj [("a", JVal.jnum 1)]) rfl
  · exact json_decode_behavior.2.2.1 (some "text/html") "x" (by decide)

end SentraProxy
